import Mathlib

/-!
Verification of the Blackjack engine of the repository (src/cogs/blackjack.py):
hand evaluation, the shoe (two-deck card supply with transparent refill),
the solo session (player vs dealer) and the multiplayer table session
(seats, turn cursor, skip-on-bust, shared-dealer settlement).

The Python code is shallowly embedded: cards are (rank, suit) pairs with
rank drawn from the fixed RANKS list (modelled as an inductive type),
Python dicts (which preserve insertion order and have unique keys) are
modelled as association lists, Python list.pop() pops from the end of the
list, and random.shuffle is modelled by quantifying over permutations of
the freshly built deck where the ordering matters (it never affects the
properties proved here beyond length and membership).
-/

/-- Ranks, exactly the RANKS list of the source:
A, 2..10, J, Q, K. -/
inductive Rank where
  | A | r2 | r3 | r4 | r5 | r6 | r7 | r8 | r9 | r10 | J | Q | K
  deriving DecidableEq, Repr, Fintype

/-- Suits, exactly the SUITS list of the source (spade, heart, diamond, club);
cosmetic, never affects value. -/
inductive Suit where
  | spade | heart | diamond | club
  deriving DecidableEq, Repr, Fintype

/-- A card is a (rank, suit) pair, as in the source. -/
structure Card where
  rank : Rank
  suit : Suit
  deriving DecidableEq, Repr

/-- RANKS as a list, in source order. -/
def RANKS : List Rank :=
  [Rank.A, Rank.r2, Rank.r3, Rank.r4, Rank.r5, Rank.r6, Rank.r7, Rank.r8,
   Rank.r9, Rank.r10, Rank.J, Rank.Q, Rank.K]

/-- SUITS as a list, in source order. -/
def SUITS : List Suit :=
  [Suit.spade, Suit.heart, Suit.diamond, Suit.club]

/-- card_value of the source: J/Q/K are 10, A is 11 (adjusted later),
numeric ranks at face value. -/
def card_value : Rank → Nat
  | Rank.A => 11
  | Rank.r2 => 2
  | Rank.r3 => 3
  | Rank.r4 => 4
  | Rank.r5 => 5
  | Rank.r6 => 6
  | Rank.r7 => 7
  | Rank.r8 => 8
  | Rank.r9 => 9
  | Rank.r10 => 10
  | Rank.J => 10
  | Rank.Q => 10
  | Rank.K => 10

/-- The ace-adjustment loop of hand_value: while total > 21 and an ace
counted as 11 remains, subtract 10 and consume one ace. -/
def adjustAces : Nat → Nat → Nat
  | t, 0 => t
  | t, Nat.succ a => if 21 < t then adjustAces (t - 10) a else t

/-- The accumulation loop of hand_value: left fold over the cards' ranks
summing card_value and counting aces. -/
def handTotals (rs : List Rank) : Nat × Nat :=
  rs.foldl (fun acc r => (acc.1 + card_value r, if r = Rank.A then acc.2 + 1 else acc.2)) (0, 0)

/-- hand_value of the source: returns (value, is_blackjack). The loop body
only reads each card's rank, so we fold over the rank projection. -/
def hand_value (cards : List Card) : Nat × Bool :=
  let p := handTotals (cards.map Card.rank)
  let total := adjustAces p.1 p.2
  (total, decide (cards.length = 2) && decide (total = 21))

/-- make_deck of the source: one card per (rank, suit) combination,
outer loop over suits, inner over ranks. -/
def make_deck : List Card :=
  SUITS.flatMap (fun s => RANKS.map (fun r => Card.mk r s))

/-- The freshly built two-deck sequence used at session creation and on
shoe refill (before shuffling; shuffling permutes it). -/
def freshShoe : List Card := make_deck ++ make_deck

/-- draw of the source (identical in BlackjackSession and
BlackjackTableSession): if the deck is empty, replace it with a freshly
built two-deck sequence, then pop the last card. random.shuffle of the
refill permutes freshShoe; the permutation is irrelevant to every property
proved below (length, membership), so the refill is modelled unshuffled. -/
def drawCard (deck : List Card) : Card × List Card :=
  if h : deck = [] then
    (freshShoe.getLast (by decide), freshShoe.dropLast)
  else
    (deck.getLast h, deck.dropLast)

-- Specification-level raw total and ace count, used to state C1.

/-- Raw sum of rank values (aces as 11). -/
def rawTotal (cards : List Card) : Nat :=
  (cards.map (fun c => card_value c.rank)).sum

/-- Number of aces in the hand. -/
def aceCount (cards : List Card) : Nat :=
  cards.countP (fun c => decide (c.rank = Rank.A))

/-- One unrolling per fuel unit of the dealer while-loop. -/
def dealerDrawLoop : Nat → List Card → List Card → List Card × List Card
  | 0, hand, deck => (hand, deck)
  | Nat.succ fuel, hand, deck =>
    if (hand_value hand).1 < 17 then
      let p := drawCard deck
      dealerDrawLoop fuel (hand ++ [p.1]) p.2
    else (hand, deck)

/-- dealer_play of the source, acting on (dealer hand, deck). -/
def dealer_play (hand deck : List Card) : List Card × List Card :=
  dealerDrawLoop 17 hand deck

/-- The result chain of BlackjackSession.settle, as a function of the two
hands. Results are the source's strings. -/
def settleResult (player dealer : List Card) : String :=
  if 21 < (hand_value player).1 then "lose"
  else if 21 < (hand_value dealer).1 then "win"
  else if (hand_value player).2 && !(hand_value dealer).2 then "win"
  else if (hand_value dealer).2 && !(hand_value player).2 then "lose"
  else if (hand_value dealer).1 < (hand_value player).1 then "win"
  else if (hand_value player).1 < (hand_value dealer).1 then "lose"
  else "push"

-- Solo session (BlackjackSession).

/-- State of a solo BlackjackSession. -/
structure SoloState where
  player_id : Nat
  deck : List Card
  player : List Card
  dealer : List Card
  finished : Bool
  result : Option String
  deriving DecidableEq, Repr

/-- BlackjackSession.__init__: empty hands, unfinished, no result; the deck
is the shuffled two-deck shoe, passed in as a parameter (random.shuffle). -/
def mkSolo (pid : Nat) (deck : List Card) : SoloState :=
  { player_id := pid, deck := deck, player := [], dealer := [],
    finished := false, result := none }

/-- BlackjackSession.hit with target "player": append one drawn card to the
player's hand. Note the source has no finished-flag guard here. -/
def solo_hit_player (st : SoloState) : SoloState :=
  let p := drawCard st.deck
  { st with player := st.player ++ [p.1], deck := p.2 }

/-- BlackjackSession.dealer_play: run the dealer while-loop on the dealer
hand and the session deck. -/
def solo_dealer_play (st : SoloState) : SoloState :=
  let p := dealer_play st.dealer st.deck
  { st with dealer := p.1, deck := p.2 }

/-- BlackjackSession.settle: set result by the chain and mark finished. -/
def solo_settle (st : SoloState) : SoloState :=
  { st with result := some (settleResult st.player st.dealer), finished := true }

/-- BlackjackUI.hit_btn: reject only when the pressing user is not the
session's player; otherwise hit, and on bust run dealer_play then settle.
The source checks interaction.user.id against session.player_id and
nothing else — in particular it never consults st.finished. -/
def hit_btn (st : SoloState) (userId : Nat) : SoloState :=
  if userId ≠ st.player_id then st
  else
    let st1 := solo_hit_player st
    if 21 < (hand_value st1.player).1 then solo_settle (solo_dealer_play st1) else st1

-- Association lists modelling Python dicts (insertion-ordered, unique keys).

/-- dict.get(k, dflt). -/
def dictGetD {α : Type} (d : List (Nat × α)) (k : Nat) (dflt : α) : α :=
  match d with
  | [] => dflt
  | p :: rest => if p.1 = k then p.2 else dictGetD rest k dflt

/-- d[k] = v: replace the value at k if present, else append the binding. -/
def dictSet {α : Type} (d : List (Nat × α)) (k : Nat) (v : α) : List (Nat × α) :=
  match d with
  | [] => [(k, v)]
  | p :: rest => if p.1 = k then (k, v) :: rest else p :: dictSet rest k v

/-- k in d. -/
def dictHas {α : Type} (d : List (Nat × α)) (k : Nat) : Bool :=
  d.any (fun p => p.1 = k)

/-- d.pop(k, None): drop the binding at k (unique keys, so the first). -/
def dictRemove {α : Type} (d : List (Nat × α)) (k : Nat) : List (Nat × α) :=
  match d with
  | [] => []
  | p :: rest => if p.1 = k then rest else p :: dictRemove rest k

/-- State of a BlackjackTableSession. players and results are Python dicts
(insertion-ordered association lists with unique keys). -/
structure TableState where
  host_id : Nat
  deck : List Card
  dealer : List Card
  players : List (Nat × List Card)
  order : List Nat
  turn_index : Nat
  started : Bool
  finished : Bool
  results : List (Nat × String)
  deriving DecidableEq, Repr

/-- BlackjackTableSession.__init__: no seats, no hands, cursor 0, lobby
state; the shuffled two-deck shoe is passed in as a parameter. -/
def mkTable (host : Nat) (deck : List Card) : TableState :=
  { host_id := host, deck := deck, dealer := [], players := [], order := [],
    turn_index := 0, started := false, finished := false, results := [] }

/-- BlackjackTableSession.add_player: only before start/finish and when the
id is not already seated; seats it with an empty hand and appends it to the
order. Returns (new state, success flag). -/
def add_player (st : TableState) (uid : Nat) : TableState × Bool :=
  if st.started || st.finished then (st, false)
  else if dictHas st.players uid then (st, false)
  else ({ st with players := st.players ++ [(uid, [])], order := st.order ++ [uid] }, true)

/-- BlackjackTableSession.remove_player: only before start/finish and when
seated; removes the hand-map binding and the first occurrence in order. -/
def remove_player (st : TableState) (uid : Nat) : TableState × Bool :=
  if st.started || st.finished then (st, false)
  else if !dictHas st.players uid then (st, false)
  else ({ st with players := dictRemove st.players uid, order := st.order.erase uid }, true)

/-- The dealing loop of start(): for uid in order, players[uid] gets two
sequentially drawn cards; the deck is threaded through. -/
def dealHands (players : List (Nat × List Card)) (order : List Nat) (deck : List Card) :
    List (Nat × List Card) × List Card :=
  match order with
  | [] => (players, deck)
  | uid :: rest =>
    let p1 := drawCard deck
    let p2 := drawCard p1.2
    dealHands (dictSet players uid [p1.1, p2.1]) rest p2.2

/-- BlackjackTableSession.start: requires lobby state and a nonempty seat
order; deals two cards to the dealer, then two to each seat in order, sets
the cursor to 0 and marks the session started. -/
def startTable (st : TableState) : TableState × Bool :=
  if st.started || st.finished then (st, false)
  else if st.order = [] then (st, false)
  else
    let p1 := drawCard st.deck
    let p2 := drawCard p1.2
    let dealt := dealHands st.players st.order p2.2
    ({ st with
        started := true
        dealer := [p1.1, p2.1]
        players := dealt.1
        deck := dealt.2
        turn_index := 0 }, true)

/-- BlackjackTableSession.current_player_id: none unless started and not
finished and the cursor is in range (the source also checks turn_index < 0,
which cannot happen since the cursor is only ever set to 0 or incremented;
the cursor is therefore a Nat here). -/
def current_player_id (st : TableState) : Option Nat :=
  if !st.started || st.finished then none
  else st.order.get? st.turn_index

-- The skip-on-bust loop of advance_turn. The source loop runs while
-- turn_index < len(order), stepping past seats whose hand value exceeds
-- 21; the index only increments, so from any start the loop makes at most
-- len(order) steps — a fuel of len(order) never cuts it short (proved
-- below as skipBustAux adequacy).

/-- One unrolling per fuel unit of the skip-while loop of advance_turn. -/
def skipBustAux (order : List Nat) (players : List (Nat × List Card)) :
    Nat → Nat → Nat
  | 0, i => i
  | Nat.succ fuel, i =>
    if i < order.length then
      if 21 < (hand_value (dictGetD players (order.getD i 0) [])).1 then
        skipBustAux order players fuel (i + 1)
      else i
    else i

/-- The skip loop, with enough fuel to reach the loop's own exit. -/
def skipBust (order : List Nat) (players : List (Nat × List Card)) (i : Nat) : Nat :=
  skipBustAux order players order.length i

/-- BlackjackTableSession.dealer_play: the same 17-stand while-loop as the
solo session, on the table's dealer hand and deck. -/
def table_dealer_play (st : TableState) : TableState :=
  let p := dealer_play st.dealer st.deck
  { st with dealer := p.1, deck := p.2 }

/-- BlackjackTableSession.settle_all: for each seated player (dict
iteration order), write the inline result chain into results; then mark
finished. The chain is the same code as BlackjackSession.settle. -/
def settle_all (st : TableState) : TableState :=
  let d := hand_value st.dealer
  let results := st.players.foldl (fun r pr =>
    let p := hand_value pr.2
    let res :=
      if 21 < p.1 then "lose"
      else if 21 < d.1 then "win"
      else if p.2 && !d.2 then "win"
      else if d.2 && !p.2 then "lose"
      else if d.1 < p.1 then "win"
      else if p.1 < d.1 then "lose"
      else "push"
    dictSet r pr.1 res) st.results
  { st with results := results, finished := true }

/-- BlackjackTableSession.advance_turn: no-op unless started and not
finished; increment the cursor, skip busted seats, and if the cursor ran
past the last seat run dealer_play then settle_all. -/
def advance_turn (st : TableState) : TableState :=
  if !st.started || st.finished then st
  else
    let i := skipBust st.order st.players (st.turn_index + 1)
    let st1 := { st with turn_index := i }
    if st.order.length ≤ i then settle_all (table_dealer_play st1) else st1

/-- BlackjackTableSession.player_hit: no-op unless started, unfinished and
the caller is the current actor; draw one card into the caller's hand and
advance the turn on bust. (In the source, players[user_id] for a current
actor is always a seated key; dictGetD with default [] coincides there.) -/
def player_hit (st : TableState) (uid : Nat) : TableState :=
  if st.finished || !st.started then st
  else if current_player_id st ≠ some uid then st
  else
    let p := drawCard st.deck
    let hand := dictGetD st.players uid [] ++ [p.1]
    let st1 := { st with deck := p.2, players := dictSet st.players uid hand }
    if 21 < (hand_value hand).1 then advance_turn st1 else st1

/-- BlackjackTableSession.player_stand: no-op unless started, unfinished
and the caller is the current actor; advance the turn. -/
def player_stand (st : TableState) (uid : Nat) : TableState :=
  if st.finished || !st.started then st
  else if current_player_id st ≠ some uid then st
  else advance_turn st

/-- BlackjackTableSession.player_double: no-op unless started, unfinished
and the caller is the current actor; draw one card, then advance the turn
unconditionally. -/
def player_double (st : TableState) (uid : Nat) : TableState :=
  if st.finished || !st.started then st
  else if current_player_id st ≠ some uid then st
  else
    let p := drawCard st.deck
    let hand := dictGetD st.players uid [] ++ [p.1]
    let st1 := { st with deck := p.2, players := dictSet st.players uid hand }
    advance_turn st1

-- Dealing gives every seat in order a two-card hand.

/-- The invariant of §3(b) of the specification. -/
def CursorInv (st : TableState) : Prop :=
  st.started = true → st.finished = false →
    st.turn_index < st.order.length ∧
      (hand_value (dictGetD st.players (st.order.getD st.turn_index 0) [])).1 ≤ 21

/-- Reachability of a table-session state through the public operations,
from a freshly created session whose deck is a shuffle (permutation) of the
two-deck shoe. -/
inductive TableReachable : TableState → Prop where
  | init (host : Nat) (deck : List Card) (hperm : deck.Perm freshShoe) :
      TableReachable (mkTable host deck)
  | add (st : TableState) (uid : Nat) (h : TableReachable st) :
      TableReachable (add_player st uid).1
  | remove (st : TableState) (uid : Nat) (h : TableReachable st) :
      TableReachable (remove_player st uid).1
  | start (st : TableState) (h : TableReachable st) :
      TableReachable (startTable st).1
  | hit (st : TableState) (uid : Nat) (h : TableReachable st) :
      TableReachable (player_hit st uid)
  | stand (st : TableState) (uid : Nat) (h : TableReachable st) :
      TableReachable (player_stand st uid)
  | double (st : TableState) (uid : Nat) (h : TableReachable st) :
      TableReachable (player_double st uid)
  | advance (st : TableState) (h : TableReachable st) :
      TableReachable (advance_turn st)

/-- A started three-seat table: seat 1 ([10,9] = 19), seat 2 bust
([10,9,5] = 24), seat 3 ([10,9] = 19); dealer shows 17; cursor at seat 0. -/
def exampleTable : TableState :=
  { host_id := 1
    deck := []
    dealer := [⟨Rank.r10, Suit.club⟩, ⟨Rank.r7, Suit.club⟩]
    players := [(1, [⟨Rank.r10, Suit.spade⟩, ⟨Rank.r9, Suit.spade⟩]),
                (2, [⟨Rank.r10, Suit.heart⟩, ⟨Rank.r9, Suit.heart⟩, ⟨Rank.r5, Suit.heart⟩]),
                (3, [⟨Rank.r10, Suit.diamond⟩, ⟨Rank.r9, Suit.diamond⟩])]
    order := [1, 2, 3]
    turn_index := 0
    started := true
    finished := false
    results := [] }

/-- A started two-seat table ready for settlement: seat 1 has 20 against
the dealer's 20 (push), seat 2 has 19 (lose). -/
def exampleSettle : TableState :=
  { host_id := 1
    deck := []
    dealer := [⟨Rank.K, Suit.club⟩, ⟨Rank.Q, Suit.club⟩]
    players := [(1, [⟨Rank.r10, Suit.spade⟩, ⟨Rank.r10, Suit.heart⟩]),
                (2, [⟨Rank.K, Suit.spade⟩, ⟨Rank.r9, Suit.spade⟩])]
    order := [1, 2]
    turn_index := 2
    started := true
    finished := false
    results := [] }

/-- A settled solo session: the player stood on 19 against the dealer's 18
and won; one card (5 of diamonds) remains in the shoe. -/
def finishedSolo : SoloState :=
  { player_id := 1
    deck := [⟨Rank.r5, Suit.diamond⟩]
    player := [⟨Rank.r10, Suit.spade⟩, ⟨Rank.r9, Suit.spade⟩]
    dealer := [⟨Rank.r10, Suit.heart⟩, ⟨Rank.r8, Suit.heart⟩]
    finished := true
    result := some "win" }

/-- A reachable table state used to witness the cursor invariant. -/
def reachedTable : TableState :=
  (startTable (add_player (mkTable 7 freshShoe) 5).1).1

theorem handTotals_spec (rs : List Rank) :
    handTotals rs = ((rs.map card_value).sum, rs.countP (fun r => decide (r = Rank.A))) := by
  have h : ∀ (rs : List Rank) (a b : Nat),
      rs.foldl (fun acc r => (acc.1 + card_value r, if r = Rank.A then acc.2 + 1 else acc.2)) (a, b)
        = (a + (rs.map card_value).sum, b + rs.countP (fun r => decide (r = Rank.A))) := by
    intro rs
    induction rs with
    | nil => intro a b; simp
    | cons r rs ih =>
      intro a b
      simp only [List.foldl_cons, List.map_cons, List.sum_cons, List.countP_cons, ih]
      by_cases hr : r = Rank.A
      · simp [hr]; omega
      · simp [hr]; omega
  simpa using h rs 0 0

theorem hand_value_fst (cards : List Card) :
    (hand_value cards).1 = adjustAces (rawTotal cards) (aceCount cards) := by
  simp only [hand_value, handTotals_spec, rawTotal, aceCount, List.map_map, List.countP_map]
  rfl

theorem hand_value_snd (cards : List Card) :
    (hand_value cards).2 = true ↔ cards.length = 2 ∧ (hand_value cards).1 = 21 := by
  simp only [hand_value, Bool.and_eq_true, decide_eq_true_eq]

-- Lower bound: the evaluated value is at least the number of cards.

theorem adjustAces_ge (t a : Nat) : t - 10 * a ≤ adjustAces t a := by
  induction a generalizing t with
  | zero => simp [adjustAces]
  | succ a ih =>
    simp only [adjustAces]
    by_cases h : 21 < t
    · simp only [h, if_true]
      have := ih (t - 10)
      omega
    · simp only [h, if_false]
      omega

theorem rawTotal_ge (cards : List Card) :
    cards.length + 10 * aceCount cards ≤ rawTotal cards := by
  induction cards with
  | nil => simp [rawTotal, aceCount]
  | cons c cs ih =>
    simp only [rawTotal, aceCount, List.map_cons, List.sum_cons, List.countP_cons,
      List.length_cons] at *
    by_cases h : c.rank = Rank.A
    · have h1 : card_value Rank.A = 11 := rfl
      simp [h]
      omega
    · have hv : 2 ≤ card_value c.rank := by
        cases hr : c.rank <;> decide
      simp [h]
      omega

theorem length_le_hand_value (cards : List Card) :
    cards.length ≤ (hand_value cards).1 := by
  rw [hand_value_fst]
  have h1 := adjustAces_ge (rawTotal cards) (aceCount cards)
  have h2 := rawTotal_ge cards
  omega

-- Dealer auto-play. The source loop is: while hand_value(dealer) < 17,
-- draw a card; identical in the solo and table session. The value of a
-- hand is at least its card count, so the loop draws fewer than 17 times;
-- a fuel of 17 therefore never cuts the loop short (proved below).

theorem dealerDrawLoop_ge (fuel : Nat) :
    ∀ hand deck : List Card, 17 ≤ hand.length + fuel →
      17 ≤ (hand_value (dealerDrawLoop fuel hand deck).1).1 := by
  induction fuel with
  | zero =>
    intro hand deck h
    simp only [dealerDrawLoop]
    have := length_le_hand_value hand
    omega
  | succ fuel ih =>
    intro hand deck h
    simp only [dealerDrawLoop]
    by_cases hv : (hand_value hand).1 < 17
    · simp only [hv, if_true]
      apply ih
      simp
      omega
    · simp only [hv, if_false]
      omega

theorem dealerDrawLoop_fuel_stable (fuel : Nat) :
    ∀ hand deck : List Card, 17 ≤ hand.length + fuel →
      dealerDrawLoop (fuel + 1) hand deck = dealerDrawLoop fuel hand deck := by
  induction fuel with
  | zero =>
    intro hand deck h
    have h2 := length_le_hand_value hand
    have hv : ¬ (hand_value hand).1 < 17 := by omega
    simp [dealerDrawLoop, hv]
  | succ fuel ih =>
    intro hand deck h
    by_cases hv : (hand_value hand).1 < 17
    · have : dealerDrawLoop (fuel + 1 + 1) hand deck
          = dealerDrawLoop (fuel + 1) (hand ++ [(drawCard deck).1]) (drawCard deck).2 := by
        simp [dealerDrawLoop, hv]
      rw [this]
      have : dealerDrawLoop (fuel + 1) hand deck
          = dealerDrawLoop fuel (hand ++ [(drawCard deck).1]) (drawCard deck).2 := by
        simp [dealerDrawLoop, hv]
      rw [this]
      apply ih
      simp
      omega
    · simp [dealerDrawLoop, hv]

theorem dealer_play_ge (hand deck : List Card) :
    17 ≤ (hand_value (dealer_play hand deck).1).1 := by
  apply dealerDrawLoop_ge
  omega

theorem dealer_play_no_draw (hand deck : List Card)
    (h : 17 ≤ (hand_value hand).1) : dealer_play hand deck = (hand, deck) := by
  have hv : ¬ (hand_value hand).1 < 17 := by omega
  simp [dealer_play, dealerDrawLoop, hv]

theorem dealer_play_draws (hand deck : List Card)
    (h : (hand_value hand).1 < 17) :
    hand.length < (dealer_play hand deck).1.length := by
  have grow : ∀ (fuel : Nat) (hand deck : List Card),
      hand.length ≤ (dealerDrawLoop fuel hand deck).1.length := by
    intro fuel
    induction fuel with
    | zero => intro hand deck; simp [dealerDrawLoop]
    | succ fuel ih =>
      intro hand deck
      simp only [dealerDrawLoop]
      by_cases hv : (hand_value hand).1 < 17
      · simp only [hv, if_true]
        have := ih (hand ++ [(drawCard deck).1]) (drawCard deck).2
        simp at this
        omega
      · simp [hv]
  have step : dealer_play hand deck
      = dealerDrawLoop 16 (hand ++ [(drawCard deck).1]) (drawCard deck).2 := by
    simp [dealer_play, dealerDrawLoop, h]
  rw [step]
  have := grow 16 (hand ++ [(drawCard deck).1]) (drawCard deck).2
  simp at this
  omega

-- Settlement. The source inlines the same if/elif chain in
-- BlackjackSession.settle and BlackjackTableSession.settle_all; we embed
-- the chain once as settleResult and (below) embed settle_all with its own
-- inline copy, proving the two agree.

theorem dictGetD_set_eq {α : Type} (d : List (Nat × α)) (k : Nat) (v dflt : α) :
    dictGetD (dictSet d k v) k dflt = v := by
  induction d with
  | nil => simp [dictSet, dictGetD]
  | cons p rest ih =>
    simp only [dictSet]
    by_cases h : p.1 = k
    · simp [h, dictGetD]
    · simp [h, dictGetD, ih]

theorem dictGetD_set_ne {α : Type} (d : List (Nat × α)) (k k' : Nat) (v dflt : α)
    (h : k' ≠ k) : dictGetD (dictSet d k v) k' dflt = dictGetD d k' dflt := by
  have hne : ¬ k = k' := fun hh => h hh.symm
  induction d with
  | nil =>
    simp only [dictSet, dictGetD]
    rw [if_neg hne]
  | cons p rest ih =>
    simp only [dictSet]
    by_cases hp : p.1 = k
    · rw [if_pos hp]
      have hp' : ¬ p.1 = k' := by rw [hp]; exact hne
      simp only [dictGetD]
      rw [if_neg hne, if_neg hp']
    · rw [if_neg hp]
      simp only [dictGetD, ih]

-- Table session (BlackjackTableSession).

theorem skipBustAux_le (order : List Nat) (players : List (Nat × List Card))
    (fuel : Nat) : ∀ i, i ≤ skipBustAux order players fuel i := by
  induction fuel with
  | zero => intro i; simp [skipBustAux]
  | succ fuel ih =>
    intro i
    simp only [skipBustAux]
    by_cases h1 : i < order.length
    · rw [if_pos h1]
      by_cases h2 : 21 < (hand_value (dictGetD players (order.getD i 0) [])).1
      · rw [if_pos h2]
        have := ih (i + 1)
        omega
      · rw [if_neg h2]
    · rw [if_neg h1]

theorem skipBustAux_not_bust (order : List Nat) (players : List (Nat × List Card))
    (fuel : Nat) :
    ∀ i, order.length ≤ i + fuel →
      skipBustAux order players fuel i < order.length →
      (hand_value (dictGetD players (order.getD (skipBustAux order players fuel i) 0) [])).1 ≤ 21 := by
  induction fuel with
  | zero =>
    intro i hf hlt
    simp only [skipBustAux] at hlt
    omega
  | succ fuel ih =>
    intro i hf hlt
    simp only [skipBustAux] at hlt ⊢
    by_cases h1 : i < order.length
    · rw [if_pos h1] at hlt ⊢
      by_cases h2 : 21 < (hand_value (dictGetD players (order.getD i 0) [])).1
      · rw [if_pos h2] at hlt ⊢
        exact ih (i + 1) (by omega) hlt
      · rw [if_neg h2] at hlt ⊢
        omega
    · rw [if_neg h1] at hlt
      omega

theorem skipBust_not_bust (order : List Nat) (players : List (Nat × List Card)) (i : Nat)
    (h : skipBust order players i < order.length) :
    (hand_value (dictGetD players (order.getD (skipBust order players i) 0) [])).1 ≤ 21 :=
  skipBustAux_not_bust order players order.length i (by omega) h

theorem skipBustAux_skipped_bust (order : List Nat) (players : List (Nat × List Card))
    (fuel : Nat) :
    ∀ i j, i ≤ j → j < skipBustAux order players fuel i →
      21 < (hand_value (dictGetD players (order.getD j 0) [])).1 := by
  induction fuel with
  | zero =>
    intro i j hij hj
    simp only [skipBustAux] at hj
    omega
  | succ fuel ih =>
    intro i j hij hj
    simp only [skipBustAux] at hj
    by_cases h1 : i < order.length
    · rw [if_pos h1] at hj
      by_cases h2 : 21 < (hand_value (dictGetD players (order.getD i 0) [])).1
      · rw [if_pos h2] at hj
        by_cases hji : j = i
        · subst hji; exact h2
        · exact ih (i + 1) j (by omega) hj
      · rw [if_neg h2] at hj
        omega
    · rw [if_neg h1] at hj
      omega

theorem dealHands_not_mem (order : List Nat) :
    ∀ (players : List (Nat × List Card)) (deck : List Card) (uid : Nat),
      uid ∉ order →
      dictGetD (dealHands players order deck).1 uid [] = dictGetD players uid [] := by
  induction order with
  | nil => intro players deck uid h; simp [dealHands]
  | cons u rest ih =>
    intro players deck uid h
    simp only [List.mem_cons, not_or] at h
    simp only [dealHands]
    rw [ih _ _ uid h.2]
    exact dictGetD_set_ne players u uid _ [] h.1

theorem dealHands_mem (order : List Nat) :
    ∀ (players : List (Nat × List Card)) (deck : List Card) (uid : Nat),
      uid ∈ order →
      ∃ c1 c2, dictGetD (dealHands players order deck).1 uid [] = [c1, c2] := by
  induction order with
  | nil => intro players deck uid h; simp at h
  | cons u rest ih =>
    intro players deck uid h
    simp only [dealHands]
    by_cases hr : uid ∈ rest
    · exact ih _ _ uid hr
    · have hu : uid = u := by
        rcases List.mem_cons.mp h with h1 | h2
        · exact h1
        · exact absurd h2 hr
      subst hu
      rw [dealHands_not_mem rest _ _ uid hr, dictGetD_set_eq]
      exact ⟨_, _, rfl⟩

-- Any two-card hand evaluates to at most 21 (a fresh deal cannot bust).

theorem two_ranks_le (ra rb : Rank) :
    adjustAces (card_value ra + card_value rb)
      ((if ra = Rank.A then 1 else 0) + (if rb = Rank.A then 1 else 0)) ≤ 21 := by
  revert ra rb
  decide

theorem two_card_hand_le (c1 c2 : Card) : (hand_value [c1, c2]).1 ≤ 21 := by
  have h : hand_value [c1, c2]
      = (adjustAces (card_value c1.rank + card_value c2.rank)
          ((if c1.rank = Rank.A then 1 else 0) + (if c2.rank = Rank.A then 1 else 0)),
         (hand_value [c1, c2]).2) := by
    simp only [hand_value, handTotals_spec, List.map_cons, List.map_nil,
      List.countP_cons, List.countP_nil, List.sum_cons, List.sum_nil]
    by_cases h1 : c1.rank = Rank.A <;> by_cases h2 : c2.rank = Rank.A <;>
      simp [h1, h2]
  calc (hand_value [c1, c2]).1
      = adjustAces (card_value c1.rank + card_value c2.rank)
          ((if c1.rank = Rank.A then 1 else 0) + (if c2.rank = Rank.A then 1 else 0)) := by
        rw [h]
    _ ≤ 21 := two_ranks_le c1.rank c2.rank

-- The cursor invariant (claim C6): in a started, unfinished table session
-- reachable through the public operations, the cursor is in range and the
-- seat it points at is not bust.

theorem settle_all_finished (st : TableState) : (settle_all st).finished = true := rfl

theorem advance_turn_inv (st : TableState)
    (hs : st.started = true) (hf : st.finished = false) :
    CursorInv (advance_turn st) := by
  have hcond : ¬((!st.started || st.finished) = true) := by
    rw [hs, hf]; decide
  unfold advance_turn
  rw [if_neg hcond]
  by_cases h : st.order.length ≤ skipBust st.order st.players (st.turn_index + 1)
  · rw [if_pos h]
    intro _ hfin
    rw [settle_all_finished] at hfin
    exact absurd hfin (by decide)
  · rw [if_neg h]
    intro _ _
    constructor
    · show skipBust st.order st.players (st.turn_index + 1) < st.order.length
      omega
    · show (hand_value (dictGetD st.players
          (st.order.getD (skipBust st.order st.players (st.turn_index + 1)) 0) [])).1 ≤ 21
      exact skipBust_not_bust st.order st.players (st.turn_index + 1) (by omega)

theorem get?_some_lt {l : List Nat} {n a : Nat} (h : l.get? n = some a) :
    n < l.length := by
  by_contra hc
  rw [List.get?_eq_none.mpr (by omega)] at h
  simp at h

theorem getD_of_get? {l : List Nat} {n a : Nat} (h : l.get? n = some a) :
    l.getD n 0 = a := by
  rw [List.getD_eq_getElem?_getD, ← List.get?_eq_getElem?, h]
  rfl

theorem current_player_eq (st : TableState) (uid : Nat)
    (h : current_player_id st = some uid) :
    st.started = true ∧ st.finished = false ∧ st.order.get? st.turn_index = some uid := by
  unfold current_player_id at h
  by_cases hc : (!st.started || st.finished) = true
  · rw [if_pos hc] at h
    exact absurd h (by simp)
  · rw [if_neg hc] at h
    have hsf : st.started = true ∧ st.finished = false := by
      cases hst : st.started <;> cases hfn : st.finished <;>
        rw [hst, hfn] at hc <;> simp_all
    exact ⟨hsf.1, hsf.2, h⟩

theorem table_reachable_inv (st : TableState) (h : TableReachable st) : CursorInv st := by
  induction h with
  | init host deck hperm =>
    intro hs _
    exact absurd hs (by simp [mkTable])
  | add st uid _ ih =>
    unfold add_player
    by_cases h1 : (st.started || st.finished) = true
    · rw [if_pos h1]; exact ih
    · rw [if_neg h1]
      by_cases h2 : dictHas st.players uid = true
      · rw [if_pos h2]; exact ih
      · rw [if_neg h2]
        intro hs _
        simp only [Bool.or_eq_true, not_or, Bool.not_eq_true] at h1
        exact absurd hs (by simp [h1.1])
  | remove st uid _ ih =>
    unfold remove_player
    by_cases h1 : (st.started || st.finished) = true
    · rw [if_pos h1]; exact ih
    · rw [if_neg h1]
      by_cases h2 : (!dictHas st.players uid) = true
      · rw [if_pos h2]; exact ih
      · rw [if_neg h2]
        intro hs _
        simp only [Bool.or_eq_true, not_or, Bool.not_eq_true] at h1
        exact absurd hs (by simp [h1.1])
  | start st _ ih =>
    unfold startTable
    by_cases h1 : (st.started || st.finished) = true
    · rw [if_pos h1]; exact ih
    · rw [if_neg h1]
      by_cases h2 : st.order = []
      · rw [if_pos h2]; exact ih
      · rw [if_neg h2]
        intro _ _
        have hlen : 0 < st.order.length := List.length_pos.mpr h2
        refine ⟨hlen, ?_⟩
        have hmem : st.order.getD 0 0 ∈ st.order := by
          cases ho : st.order with
          | nil => exact absurd ho h2
          | cons u rest => simp [ho]
        obtain ⟨c1, c2, hc⟩ := dealHands_mem st.order st.players _ _ hmem
        show (hand_value (dictGetD (dealHands st.players st.order
            (drawCard (drawCard st.deck).2).2).1 (st.order.getD 0 0) [])).1 ≤ 21
        rw [hc]
        exact two_card_hand_le c1 c2
  | hit st uid _ ih =>
    unfold player_hit
    by_cases h1 : (st.finished || !st.started) = true
    · rw [if_pos h1]; exact ih
    · rw [if_neg h1]
      by_cases h2 : current_player_id st ≠ some uid
      · rw [if_pos h2]; exact ih
      · rw [if_neg h2]
        push_neg at h2
        obtain ⟨hs, hf, hget⟩ := current_player_eq st uid h2
        by_cases h3 : 21 < (hand_value (dictGetD st.players uid [] ++ [(drawCard st.deck).1])).1
        · rw [if_pos h3]
          exact advance_turn_inv _ hs hf
        · rw [if_neg h3]
          intro _ _
          refine ⟨get?_some_lt hget, ?_⟩
          show (hand_value (dictGetD (dictSet st.players uid
              (dictGetD st.players uid [] ++ [(drawCard st.deck).1]))
              (st.order.getD st.turn_index 0) [])).1 ≤ 21
          rw [getD_of_get? hget, dictGetD_set_eq]
          omega
  | stand st uid _ ih =>
    unfold player_stand
    by_cases h1 : (st.finished || !st.started) = true
    · rw [if_pos h1]; exact ih
    · rw [if_neg h1]
      by_cases h2 : current_player_id st ≠ some uid
      · rw [if_pos h2]; exact ih
      · rw [if_neg h2]
        push_neg at h2
        obtain ⟨hs, hf, _⟩ := current_player_eq st uid h2
        exact advance_turn_inv st hs hf
  | double st uid _ ih =>
    unfold player_double
    by_cases h1 : (st.finished || !st.started) = true
    · rw [if_pos h1]; exact ih
    · rw [if_neg h1]
      by_cases h2 : current_player_id st ≠ some uid
      · rw [if_pos h2]; exact ih
      · rw [if_neg h2]
        push_neg at h2
        obtain ⟨hs, hf, _⟩ := current_player_eq st uid h2
        exact advance_turn_inv _ hs hf
  | advance st _ ih =>
    by_cases h1 : (!st.started || st.finished) = true
    · unfold advance_turn
      rw [if_pos h1]
      exact ih
    · have hsf : st.started = true ∧ st.finished = false := by
        cases hst : st.started <;> cases hfn : st.finished <;>
          rw [hst, hfn] at h1 <;> simp_all
      exact advance_turn_inv st hsf.1 hsf.2

-- settle_all writes, for each seated player in dict order, exactly the
-- solo result chain against the shared dealer hand.

theorem dictSet_fresh {α : Type} (r : List (Nat × α)) (k : Nat) (v : α)
    (h : dictHas r k = false) : dictSet r k v = r ++ [(k, v)] := by
  induction r with
  | nil => simp [dictSet]
  | cons p rest ih =>
    simp only [dictHas, List.any_cons, Bool.or_eq_false_iff] at h
    simp only [dictSet]
    rw [if_neg (by simpa using h.1)]
    rw [ih (by simpa [dictHas] using h.2)]
    simp

theorem dictHas_append {α : Type} (r : List (Nat × α)) (q : Nat × α) (k : Nat) :
    dictHas (r ++ [q]) k = (dictHas r k || decide (q.1 = k)) := by
  simp [dictHas]

theorem foldl_dictSet_fresh (f : Nat × List Card → String) :
    ∀ (l : List (Nat × List Card)) (r : List (Nat × String)),
      (∀ p ∈ l, dictHas r p.1 = false) → (l.map Prod.fst).Nodup →
      l.foldl (fun acc pr => dictSet acc pr.1 (f pr)) r
        = r ++ l.map (fun pr => (pr.1, f pr)) := by
  intro l
  induction l with
  | nil => intro r _ _; simp
  | cons p rest ih =>
    intro r hfresh hnd
    simp only [List.foldl_cons]
    rw [dictSet_fresh r p.1 (f p) (hfresh p (by simp))]
    simp only [List.map_cons, List.nodup_cons] at hnd
    have step : ∀ q ∈ rest, dictHas (r ++ [(p.1, f p)]) q.1 = false := by
      intro q hq
      rw [dictHas_append]
      have h1 : dictHas r q.1 = false := hfresh q (by simp [hq])
      have h2 : q.1 ≠ p.1 := by
        intro he
        exact hnd.1 (he ▸ List.mem_map_of_mem Prod.fst hq)
      have h3 : ¬ p.1 = q.1 := fun hh => h2 hh.symm
      simp [h1, h3]
    rw [ih (r ++ [(p.1, f p)]) step hnd.2]
    simp

theorem settle_all_results (st : TableState) (h0 : st.results = [])
    (hnd : (st.players.map Prod.fst).Nodup) :
    (settle_all st).results
      = st.players.map (fun pr => (pr.1, settleResult pr.2 st.dealer)) := by
  show st.players.foldl
      (fun acc pr => dictSet acc pr.1 (settleResult pr.2 st.dealer)) st.results
    = st.players.map (fun pr => (pr.1, settleResult pr.2 st.dealer))
  rw [h0]
  rw [foldl_dictSet_fresh (fun pr => settleResult pr.2 st.dealer) st.players []
    (by intro p _; rfl) hnd]
  simp

theorem advance_turn_state (st : TableState)
    (hs : st.started = true) (hf : st.finished = false) :
    (advance_turn st).turn_index = skipBust st.order st.players (st.turn_index + 1) ∧
    (advance_turn st).order = st.order ∧
    (advance_turn st).players = st.players ∧
    (st.order.length ≤ skipBust st.order st.players (st.turn_index + 1) →
      (advance_turn st).finished = true ∧
      (advance_turn st).dealer = (dealer_play st.dealer st.deck).1) ∧
    (skipBust st.order st.players (st.turn_index + 1) < st.order.length →
      (advance_turn st).finished = false) := by
  have hcond : ¬((!st.started || st.finished) = true) := by
    rw [hs, hf]; decide
  unfold advance_turn
  rw [if_neg hcond]
  by_cases h : st.order.length ≤ skipBust st.order st.players (st.turn_index + 1)
  · rw [if_pos h]
    exact ⟨rfl, rfl, rfl, fun _ => ⟨rfl, rfl⟩, fun hlt => absurd h (by omega)⟩
  · rw [if_neg h]
    exact ⟨rfl, rfl, rfl, fun hle => absurd hle h, fun _ => hf⟩

theorem settleResult_cases (player dealer : List Card) :
    (21 < (hand_value player).1 → settleResult player dealer = "lose") ∧
    ((hand_value player).1 ≤ 21 → 21 < (hand_value dealer).1 →
      settleResult player dealer = "win") ∧
    ((hand_value player).1 ≤ 21 → (hand_value dealer).1 ≤ 21 →
      (hand_value player).2 = true → (hand_value dealer).2 = false →
      settleResult player dealer = "win") ∧
    ((hand_value player).1 ≤ 21 → (hand_value dealer).1 ≤ 21 →
      (hand_value dealer).2 = true → (hand_value player).2 = false →
      settleResult player dealer = "lose") ∧
    ((hand_value player).1 ≤ 21 → (hand_value dealer).1 ≤ 21 →
      (hand_value player).2 = (hand_value dealer).2 →
      ((hand_value dealer).1 < (hand_value player).1 →
        settleResult player dealer = "win") ∧
      ((hand_value player).1 < (hand_value dealer).1 →
        settleResult player dealer = "lose") ∧
      ((hand_value player).1 = (hand_value dealer).1 →
        settleResult player dealer = "push")) := by
  refine ⟨?_, ?_, ?_, ?_, ?_⟩
  · intro h
    unfold settleResult
    rw [if_pos h]
  · intro h1 h2
    unfold settleResult
    rw [if_neg (by omega), if_pos h2]
  · intro h1 h2 hp hd
    unfold settleResult
    rw [if_neg (by omega), if_neg (by omega), hp, hd]
    rw [if_pos (by decide)]
  · intro h1 h2 hd hp
    unfold settleResult
    rw [if_neg (by omega), if_neg (by omega), hp, hd]
    rw [if_neg (by decide), if_pos (by decide)]
  · intro h1 h2 heq
    unfold settleResult
    rw [if_neg (by omega), if_neg (by omega)]
    have h3 : ((hand_value player).2 && !(hand_value dealer).2) = false := by
      rw [heq]; cases (hand_value dealer).2 <;> rfl
    have h4 : ((hand_value dealer).2 && !(hand_value player).2) = false := by
      rw [← heq]; cases (hand_value player).2 <;> rfl
    rw [if_neg (by rw [h3]; decide), if_neg (by rw [h4]; decide)]
    refine ⟨?_, ?_, ?_⟩
    · intro h5
      rw [if_pos h5]
    · intro h5
      rw [if_neg (by omega), if_pos h5]
    · intro h5
      rw [if_neg (by omega), if_neg (by omega)]

-- Concrete states used to instantiate the claims.

theorem adjustAces_step (t a : Nat) (h1 : 21 < t) (h2 : 0 < a) :
    adjustAces t a = adjustAces (t - 10) (a - 1) := by
  cases a with
  | zero => omega
  | succ a =>
    simp only [adjustAces]
    rw [if_pos h1]
    rfl

theorem adjustAces_stop (t a : Nat) (h : t ≤ 21 ∨ a = 0) : adjustAces t a = t := by
  cases a with
  | zero => rfl
  | succ a =>
    rcases h with h | h
    · simp only [adjustAces]
      rw [if_neg (by omega)]
    · simp at h

/-- C1: for every hand, the evaluator totals the rank values (J/Q/K = 10,
ace = 11 initially, numeric ranks at face value), then subtracts 10 per ace
while the total exceeds 21 and an ace counted as 11 remains; and the
blackjack flag is true iff the hand has exactly two cards and the resulting
total is 21 — a 3-card 21 such as 7+7+7 is not blackjack. -/
theorem C1_hand_value_evaluation :
    (∀ cards : List Card,
      (hand_value cards).1 = adjustAces (rawTotal cards) (aceCount cards)) ∧
    (card_value Rank.J = 10 ∧ card_value Rank.Q = 10 ∧ card_value Rank.K = 10 ∧
      card_value Rank.A = 11 ∧ card_value Rank.r7 = 7) ∧
    (∀ t a : Nat, 21 < t → 0 < a → adjustAces t a = adjustAces (t - 10) (a - 1)) ∧
    (∀ t a : Nat, t ≤ 21 ∨ a = 0 → adjustAces t a = t) ∧
    (∀ cards : List Card,
      (hand_value cards).2 = true ↔ cards.length = 2 ∧ (hand_value cards).1 = 21) ∧
    hand_value [⟨Rank.r7, Suit.spade⟩, ⟨Rank.r7, Suit.heart⟩, ⟨Rank.r7, Suit.diamond⟩]
      = (21, false) :=
  ⟨hand_value_fst, by decide, adjustAces_step, adjustAces_stop, hand_value_snd, by decide⟩

theorem C1_witness :
    adjustAces 22 2 = adjustAces 12 1 ∧ adjustAces 17 0 = 17 :=
  ⟨C1_hand_value_evaluation.2.2.1 22 2 (by decide) (by decide),
   C1_hand_value_evaluation.2.2.2.1 17 0 (Or.inr rfl)⟩

/-- C2: settlement follows the tie-break order player-bust → lose, dealer
bust → win, player blackjack only → win, dealer blackjack only → lose,
higher total wins, equal totals push; the solo settle writes exactly this
result; settle_all applies the same rule independently per seated player
against the shared dealer hand; 20 vs 20 pushes, a player blackjack beats a
dealer three-card 21, and blackjack against blackjack pushes. -/
theorem C2_settlement_order :
    (∀ player dealer : List Card,
      (21 < (hand_value player).1 → settleResult player dealer = "lose") ∧
      ((hand_value player).1 ≤ 21 → 21 < (hand_value dealer).1 →
        settleResult player dealer = "win") ∧
      ((hand_value player).1 ≤ 21 → (hand_value dealer).1 ≤ 21 →
        (hand_value player).2 = true → (hand_value dealer).2 = false →
        settleResult player dealer = "win") ∧
      ((hand_value player).1 ≤ 21 → (hand_value dealer).1 ≤ 21 →
        (hand_value dealer).2 = true → (hand_value player).2 = false →
        settleResult player dealer = "lose") ∧
      ((hand_value player).1 ≤ 21 → (hand_value dealer).1 ≤ 21 →
        (hand_value player).2 = (hand_value dealer).2 →
        ((hand_value dealer).1 < (hand_value player).1 →
          settleResult player dealer = "win") ∧
        ((hand_value player).1 < (hand_value dealer).1 →
          settleResult player dealer = "lose") ∧
        ((hand_value player).1 = (hand_value dealer).1 →
          settleResult player dealer = "push"))) ∧
    (∀ st : SoloState,
      (solo_settle st).result = some (settleResult st.player st.dealer) ∧
      (solo_settle st).finished = true) ∧
    (∀ st : TableState, st.results = [] → (st.players.map Prod.fst).Nodup →
      (settle_all st).results
        = st.players.map (fun pr => (pr.1, settleResult pr.2 st.dealer)) ∧
      (settle_all st).finished = true) ∧
    settleResult [⟨Rank.r10, Suit.spade⟩, ⟨Rank.r10, Suit.heart⟩]
      [⟨Rank.K, Suit.club⟩, ⟨Rank.Q, Suit.club⟩] = "push" ∧
    settleResult [⟨Rank.A, Suit.spade⟩, ⟨Rank.K, Suit.spade⟩]
      [⟨Rank.r7, Suit.spade⟩, ⟨Rank.r7, Suit.heart⟩, ⟨Rank.r7, Suit.diamond⟩] = "win" ∧
    settleResult [⟨Rank.A, Suit.spade⟩, ⟨Rank.K, Suit.spade⟩]
      [⟨Rank.A, Suit.heart⟩, ⟨Rank.K, Suit.heart⟩] = "push" :=
  ⟨settleResult_cases,
   fun _ => ⟨rfl, rfl⟩,
   fun st h1 h2 => ⟨settle_all_results st h1 h2, rfl⟩,
   by decide, by decide, by decide⟩

theorem C2_witness :
    settleResult [⟨Rank.K, Suit.spade⟩, ⟨Rank.Q, Suit.spade⟩, ⟨Rank.r5, Suit.spade⟩]
      [⟨Rank.K, Suit.heart⟩, ⟨Rank.Q, Suit.heart⟩, ⟨Rank.r5, Suit.heart⟩] = "lose" ∧
    ((settle_all exampleSettle).results
        = exampleSettle.players.map
            (fun pr => (pr.1, settleResult pr.2 exampleSettle.dealer)) ∧
      (settle_all exampleSettle).finished = true) :=
  ⟨(C2_settlement_order.1 _ _).1 (by decide),
   C2_settlement_order.2.2.1 exampleSettle rfl (by decide)⟩

/-- C3: dealer auto-play (identical loop in the solo and table sessions)
terminates on its own for every starting hand and shoe — extra fuel does
not change its result — draws exactly when the hand value is below 17, and
halts with a final value of at least 17, never drawing at 17 or more. -/
theorem C3_dealer_play_halts :
    (∀ hand deck : List Card,
      17 ≤ (hand_value (dealer_play hand deck).1).1 ∧
      (17 ≤ (hand_value hand).1 → dealer_play hand deck = (hand, deck)) ∧
      ((hand_value hand).1 < 17 → hand.length < (dealer_play hand deck).1.length) ∧
      dealerDrawLoop 18 hand deck = dealer_play hand deck) ∧
    (∀ st : SoloState, solo_dealer_play st
        = { st with
            dealer := (dealer_play st.dealer st.deck).1
            deck := (dealer_play st.dealer st.deck).2 }) ∧
    (∀ st : TableState, table_dealer_play st
        = { st with
            dealer := (dealer_play st.dealer st.deck).1
            deck := (dealer_play st.dealer st.deck).2 }) :=
  ⟨fun hand deck =>
    ⟨dealer_play_ge hand deck, dealer_play_no_draw hand deck,
     dealer_play_draws hand deck,
     dealerDrawLoop_fuel_stable 17 hand deck (by omega)⟩,
   fun _ => rfl, fun _ => rfl⟩

theorem C3_witness :
    dealer_play [⟨Rank.K, Suit.spade⟩, ⟨Rank.Q, Suit.spade⟩] []
      = ([⟨Rank.K, Suit.spade⟩, ⟨Rank.Q, Suit.spade⟩], []) ∧
    ([] : List Card).length < (dealer_play [] []).1.length :=
  ⟨(C3_dealer_play_halts.1 [⟨Rank.K, Suit.spade⟩, ⟨Rank.Q, Suit.spade⟩] []).2.1 (by decide),
   (C3_dealer_play_halts.1 [] []).2.2.1 (by decide)⟩

/-- C4: draw never fails — an empty shoe is first replaced by the freshly
built two-deck 104-card sequence, so a valid card is always returned, and
drawing from an empty shoe leaves 103 cards behind. -/
theorem C4_draw_refill :
    freshShoe.length = 104 ∧
    (∀ deck : List Card, deck = [] →
      (drawCard deck).1 ∈ freshShoe ∧ (drawCard deck).2 ≠ [] ∧
      (drawCard deck).2.length = 103) ∧
    (∀ deck : List Card, deck ≠ [] →
      (drawCard deck).1 ∈ deck ∧ (drawCard deck).2.length = deck.length - 1) := by
  refine ⟨rfl, ?_, ?_⟩
  · intro deck h
    subst h
    refine ⟨by decide, by decide, by decide⟩
  · intro deck h
    unfold drawCard
    rw [dif_neg h]
    exact ⟨List.getLast_mem h, List.length_dropLast deck⟩

theorem C4_witness :
    ((drawCard []).1 ∈ freshShoe ∧ (drawCard []).2 ≠ [] ∧
      (drawCard []).2.length = 103) ∧
    ((drawCard [Card.mk Rank.A Suit.spade]).1 ∈ [Card.mk Rank.A Suit.spade] ∧
      (drawCard [Card.mk Rank.A Suit.spade]).2.length
        = ([Card.mk Rank.A Suit.spade] : List Card).length - 1) :=
  ⟨C4_draw_refill.2.1 [] rfl,
   C4_draw_refill.2.2 [Card.mk Rank.A Suit.spade] (by decide)⟩

/-- C5: in an active table session, advance_turn strictly increments the
cursor, every seat it skips over was already bust, a seat it lands on is
not bust and the session stays unfinished, and when the cursor runs past
the last seat the dealer auto-plays (final value at least 17) and
settle_all marks the session finished; concretely, with three seats where
the middle one is bust, the cursor jumps from seat 0 straight to seat 2 and
the next advance settles the session. -/
theorem C5_advance_turn_skips_busts :
    (∀ st : TableState, st.started = true → st.finished = false →
      st.turn_index < (advance_turn st).turn_index ∧
      (∀ j, st.turn_index < j → j < (advance_turn st).turn_index →
        21 < (hand_value (dictGetD st.players (st.order.getD j 0) [])).1) ∧
      ((advance_turn st).turn_index < st.order.length →
        (advance_turn st).finished = false ∧
        (hand_value (dictGetD st.players
          (st.order.getD (advance_turn st).turn_index 0) [])).1 ≤ 21) ∧
      (st.order.length ≤ (advance_turn st).turn_index →
        (advance_turn st).finished = true ∧
        17 ≤ (hand_value (advance_turn st).dealer).1)) ∧
    (advance_turn exampleTable).turn_index = 2 ∧
    (advance_turn exampleTable).finished = false ∧
    (advance_turn (advance_turn exampleTable)).finished = true ∧
    17 ≤ (hand_value (advance_turn (advance_turn exampleTable)).dealer).1 := by
  refine ⟨?_, by decide, by decide, by decide, by decide⟩
  intro st hs hf
  obtain ⟨hcur, _, _, hsettle, hkeep⟩ := advance_turn_state st hs hf
  rw [hcur]
  refine ⟨?_, ?_, ?_, ?_⟩
  · have := skipBustAux_le st.order st.players st.order.length (st.turn_index + 1)
    show st.turn_index < skipBust st.order st.players (st.turn_index + 1)
    unfold skipBust
    omega
  · intro j h1 h2
    exact skipBustAux_skipped_bust st.order st.players st.order.length
      (st.turn_index + 1) j (by omega) h2
  · intro hlt
    exact ⟨hkeep hlt, skipBust_not_bust st.order st.players (st.turn_index + 1) hlt⟩
  · intro hge
    obtain ⟨h1, h2⟩ := hsettle hge
    refine ⟨h1, ?_⟩
    rw [h2]
    exact dealer_play_ge st.dealer st.deck

theorem C5_witness :
    exampleTable.turn_index < (advance_turn exampleTable).turn_index ∧
    21 < (hand_value (dictGetD exampleTable.players
      (exampleTable.order.getD 1 0) [])).1 :=
  ⟨(C5_advance_turn_skips_busts.1 exampleTable rfl rfl).1,
   (C5_advance_turn_skips_busts.1 exampleTable rfl rfl).2.1 1 (by decide) (by decide)⟩

/-- C6: for every table-session state reachable through add_player,
remove_player, start, hit, stand, double and advance_turn: while the
session is started and not finished, the turn cursor points at a seated
participant (it is in range of the seat order) whose hand total does not
exceed 21 — otherwise the session has already been marked finished. -/
theorem C6_cursor_invariant :
    ∀ st : TableState, TableReachable st →
      st.started = true → st.finished = false →
      st.turn_index < st.order.length ∧
      (hand_value (dictGetD st.players (st.order.getD st.turn_index 0) [])).1 ≤ 21 :=
  fun st h hs hf => table_reachable_inv st h hs hf

theorem C6_witness :
    reachedTable.turn_index < reachedTable.order.length ∧
    (hand_value (dictGetD reachedTable.players
      (reachedTable.order.getD reachedTable.turn_index 0) [])).1 ≤ 21 :=
  C6_cursor_invariant reachedTable
    (TableReachable.start _
      (TableReachable.add _ 5 (TableReachable.init 7 freshShoe (List.Perm.refl _))))
    rfl rfl

/-- C7: add_player succeeds exactly when the session is neither started nor
finished and the id is not already seated, in which case it appends the id
to the seat order with an empty hand; in every other case it fails and the
state (in particular the seat list and hand map) is exactly unchanged. -/
theorem C7_add_player_guards :
    ∀ (st : TableState) (uid : Nat),
      ((add_player st uid).2 = true ↔
        st.started = false ∧ st.finished = false ∧ dictHas st.players uid = false) ∧
      ((add_player st uid).2 = true →
        (add_player st uid).1.order = st.order ++ [uid] ∧
        (add_player st uid).1.players = st.players ++ [(uid, [])]) ∧
      ((add_player st uid).2 = false → (add_player st uid).1 = st) := by
  intro st uid
  unfold add_player
  by_cases h1 : (st.started || st.finished) = true
  · rw [if_pos h1]
    refine ⟨?_, ?_, fun _ => rfl⟩
    · constructor
      · intro h; simp at h
      · rintro ⟨hs, hf, _⟩
        rw [hs, hf] at h1
        exact absurd h1 (by decide)
    · intro h; simp at h
  · rw [if_neg h1]
    have hsf : st.started = false ∧ st.finished = false := by
      cases hst : st.started <;> cases hfn : st.finished <;>
        rw [hst, hfn] at h1 <;> simp_all
    by_cases h2 : dictHas st.players uid = true
    · rw [if_pos h2]
      refine ⟨?_, ?_, fun _ => rfl⟩
      · constructor
        · intro h; simp at h
        · rintro ⟨_, _, hh⟩
          rw [hh] at h2
          exact absurd h2 (by decide)
      · intro h; simp at h
    · rw [if_neg h2]
      refine ⟨?_, fun _ => ⟨rfl, rfl⟩, ?_⟩
      · constructor
        · intro _
          exact ⟨hsf.1, hsf.2, by revert h2; cases dictHas st.players uid <;> simp⟩
        · intro _; rfl
      · intro h; simp at h

theorem C7_witness :
    (add_player (mkTable 3 []) 4).1.order = (mkTable 3 []).order ++ [4] ∧
    (add_player (mkTable 3 []) 4).1.players = (mkTable 3 []).players ++ [(4, [])] ∧
    (add_player exampleTable 9).1 = exampleTable :=
  ⟨((C7_add_player_guards (mkTable 3 []) 4).2.1 rfl).1,
   ((C7_add_player_guards (mkTable 3 []) 4).2.1 rfl).2,
   (C7_add_player_guards exampleTable 9).2.2 rfl⟩

/-- C8: a hit, stand or double by any identity other than the current
actor, or submitted when the table session is not started or already
finished, is rejected with no state change at all — the returned session
state equals the previous one in every field. -/
theorem C8_unauthorized_no_change :
    ∀ (st : TableState) (uid : Nat),
      st.started = false ∨ st.finished = true ∨ current_player_id st ≠ some uid →
      player_hit st uid = st ∧ player_stand st uid = st ∧ player_double st uid = st := by
  intro st uid h
  by_cases hg : (st.finished || !st.started) = true
  · refine ⟨?_, ?_, ?_⟩
    · unfold player_hit; rw [if_pos hg]
    · unfold player_stand; rw [if_pos hg]
    · unfold player_double; rw [if_pos hg]
  · have hsf : st.started = true ∧ st.finished = false := by
      cases hst : st.started <;> cases hfn : st.finished <;>
        rw [hst, hfn] at hg <;> simp_all
    have hcur : current_player_id st ≠ some uid := by
      rcases h with h | h | h
      · rw [hsf.1] at h; exact absurd h (by decide)
      · rw [hsf.2] at h; exact absurd h (by decide)
      · exact h
    refine ⟨?_, ?_, ?_⟩
    · unfold player_hit; rw [if_neg hg, if_pos hcur]
    · unfold player_stand; rw [if_neg hg, if_pos hcur]
    · unfold player_double; rw [if_neg hg, if_pos hcur]

theorem C8_witness :
    player_hit exampleTable 99 = exampleTable ∧
    player_stand exampleTable 99 = exampleTable ∧
    player_double exampleTable 99 = exampleTable :=
  C8_unauthorized_no_change exampleTable 99 (Or.inr (Or.inr (by decide)))

/-- C9: the claim says a settled solo session is immutable — a Hit after
settlement should be rejected as an invalid-state failure with no field
changed. The source's BlackjackSession.hit and the solo hit button handler
never consult the finished flag (unlike the table handlers), so a Hit on a
finished session draws a card into the player's hand and re-settles: on
this settled winning session the hand grows to three cards and the stored
result flips from "win" to "lose". -/
theorem C9_hit_after_settlement_mutates :
    finishedSolo.finished = true ∧
    finishedSolo.result = some "win" ∧
    hit_btn finishedSolo 1 ≠ finishedSolo ∧
    (hit_btn finishedSolo 1).player
      = finishedSolo.player ++ [Card.mk Rank.r5 Suit.diamond] ∧
    (hit_btn finishedSolo 1).result = some "lose" := by
  refine ⟨rfl, rfl, by decide, by decide, by decide⟩

/-- C10: creating a table session does not seat the host — the fresh
session has an empty seat order and hand map with the host recorded only
as host_id — and start() fails leaving the session unchanged until a
participant (the host joins like anyone else) has been seated, after which
start() succeeds. -/
theorem C10_host_not_auto_seated :
    ∀ (host : Nat) (deck : List Card),
      (mkTable host deck).order = [] ∧
      (mkTable host deck).players = [] ∧
      (mkTable host deck).host_id = host ∧
      (mkTable host deck).started = false ∧
      startTable (mkTable host deck) = (mkTable host deck, false) ∧
      (add_player (mkTable host deck) host).2 = true ∧
      (startTable (add_player (mkTable host deck) host).1).2 = true :=
  fun _ _ => ⟨rfl, rfl, rfl, rfl, rfl, rfl, rfl⟩
